import Mathlib

/-!
Shallow embedding of rust-wordle's src/lib.rs (wordle_lib): the validated
Guess type, the two-pass verify algorithm and the GameResponse verdict
type, together with a reference algorithm modelled from the spec, and the
theorems settling the claims about them.

Strings are modelled as lists of characters; Rust String::len (the UTF-8
byte count) is byteLen.  A fixed [T; 5] array is modelled as a function
Nat → T read and written only at indices 0..4; a Rust panic (an
index-out-of-bounds write, or the unreachable! in GameResponse::new) is
modelled by an Option none result.
-/

namespace Wordle

/-- UTF-8 byte count of one character (Rust char::len_utf8). -/
def len_utf8 (c : Char) : Nat :=
  if c.toNat < 0x80 then 1
  else if c.toNat < 0x800 then 2
  else if c.toNat < 0x10000 then 3
  else 4

/-- Rust String::len: the UTF-8 byte length of a string. -/
def byteLen (s : List Char) : Nat := (s.map len_utf8).sum

/-- Rust char::is_alphabetic (the Unicode Alphabetic property), modelled on
the code points this development uses: the ASCII letters, and the Latin-1
block 0xC0-0xFF (whose code points are all Alphabetic except the
multiplication and division signs 0xD7 and 0xF7).  Code points at 0x100 and
above are not used anywhere below and are left non-alphabetic. -/
def is_alphabetic (c : Char) : Bool :=
  if ('a' ≤ c ∧ c ≤ 'z') ∨ ('A' ≤ c ∧ c ≤ 'Z') then true
  else if 0xC0 ≤ c.toNat ∧ c.toNat ≤ 0xFF ∧ c.toNat ≠ 0xD7 ∧ c.toNat ≠ 0xF7 then true
  else false

/-- Error type of Guess::build (enum GuessError). -/
inductive GuessError
  | NotFiveLetters
  | NotAlphabetic
deriving DecidableEq

/-- A guess word: struct Guess { text: String }. -/
structure Guess where
  text : List Char
deriving DecidableEq

/-- Guess::new: the unchecked constructor (Rust marks it as bypassing
validation); it wraps the text unchanged. -/
def Guess.new (text : List Char) : Guess := ⟨text⟩

/-- Guess::build: rejects (in this order) strings whose byte length is not 5
and strings containing a non-alphabetic character, then wraps the text
unchanged via Guess::new. -/
def Guess.build (text : List Char) : Except GuessError Guess :=
  if byteLen text ≠ 5 then .error .NotFiveLetters
  else if !text.all is_alphabetic then .error .NotAlphabetic
  else .ok (Guess.new text)

/-- Array store: upd f i v is the array f with index i set to v. -/
def upd {α : Type} (f : Nat → α) (i : Nat) (v : α) : Nat → α :=
  fun k => if k = i then v else f k

/-- Write loop of Guess::as_array: writes the characters of the text into
the buffer starting at index i; a write at an index outside 0..4 is the
Rust index-out-of-bounds panic, modelled as none. -/
def asArrayGo : List Char → Nat → (Nat → Char) → Option (Nat → Char)
  | [], _, arr => some arr
  | c :: cs, i, arr =>
    if i < 5 then asArrayGo cs (i + 1) (upd arr i c) else none

/-- Guess::as_array: a [char; 5] buffer initialised with 'a' and overwritten
with the characters of the text. -/
def Guess.as_array (g : Guess) : Option (Nat → Char) :=
  asArrayGo g.text 0 (fun _ => 'a')

/-- Per-position verdict (enum GameResponseChar); the spec calls the three
values Correct, Present and Absent. -/
inductive GameResponseChar
  | Green
  | Yellow
  | Gray
deriving DecidableEq

/-- Emoji constant GREEN of the source. -/
def GREEN : Char := '🟩'

/-- Emoji constant YELLOW of the source. -/
def YELLOW : Char := '🟨'

/-- Emoji constant GRAY of the source. -/
def GRAY : Char := '⬜'

/-- GameResponseChar::to_char: the compact symbols G, Y and -. -/
def GameResponseChar.to_char : GameResponseChar → Char
  | .Green => 'G'
  | .Yellow => 'Y'
  | .Gray => '-'

/-- GameResponseChar::to_emoji: the decorative glyphs. -/
def GameResponseChar.to_emoji : GameResponseChar → Char
  | .Green => GREEN
  | .Yellow => YELLOW
  | .Gray => GRAY

/-- GameResponseChar::five_greys: the all-Gray array. -/
def GameResponseChar.five_greys : Nat → GameResponseChar := fun _ => .Gray

/-- The verdict sequence (struct GameResponse { text: [GameResponseChar; 5] }). -/
structure GameResponse where
  text : List GameResponseChar
deriving DecidableEq

/-- GameResponse::new_from_game_resp_char: stores the five verdicts of the
array (read off at indices 0..4). -/
def GameResponse.new_from_game_resp_char (resp : Nat → GameResponseChar) : GameResponse :=
  ⟨(List.range 5).map resp⟩

/-- First loop of Guess::verify: position i is Green on an exact match (and
answer position i is recorded as pointed-to), else tentatively Yellow
whenever the answer's text contains the guessed character. -/
def pass1Step (ga aa : Nat → Char) (answerText : List Char)
    (st : (Nat → GameResponseChar) × (Nat → Bool)) (i : Nat) :
    (Nat → GameResponseChar) × (Nat → Bool) :=
  if ga i = aa i then (upd st.1 i .Green, upd st.2 i true)
  else if answerText.contains (ga i) then (upd st.1 i .Yellow, st.2)
  else st

/-- First pass of Guess::verify over positions 0..4, starting from
five_greys and the all-false pointed-to array. -/
def pass1 (ga aa : Nat → Char) (answerText : List Char) :
    (Nat → GameResponseChar) × (Nat → Bool) :=
  (List.range 5).foldl (pass1Step ga aa answerText)
    (GameResponseChar.five_greys, fun _ => false)

/-- Inner loop of the second pass of Guess::verify: walk the answer
positions holding the guessed character; a consumed position writes Gray
and the scan continues, the first unconsumed position writes Yellow, is
consumed, and the scan stops (the Rust break). -/
def fixLoop (i : Nat) : List Nat → (Nat → GameResponseChar) → (Nat → Bool) →
    (Nat → GameResponseChar) × (Nat → Bool)
  | [], resp, consumed => (resp, consumed)
  | j :: js, resp, consumed =>
    if consumed j = false then (upd resp i .Yellow, upd consumed j true)
    else fixLoop i js (upd resp i .Gray) consumed

/-- Second loop of Guess::verify: every position that the first pass left
Yellow (read from the clone respCopy) is re-resolved against the answer
positions holding its character. -/
def pass2Step (ga aa : Nat → Char) (respCopy : Nat → GameResponseChar)
    (st : (Nat → GameResponseChar) × (Nat → Bool)) (i : Nat) :
    (Nat → GameResponseChar) × (Nat → Bool) :=
  if respCopy i = .Yellow then
    fixLoop i ((List.range 5).filter (fun j => aa j == ga i)) st.1 st.2
  else st

/-- Second pass of Guess::verify over positions 0..4; the clone respCopy is
the state after the first pass. -/
def pass2 (ga aa : Nat → Char)
    (st1 : (Nat → GameResponseChar) × (Nat → Bool)) :
    (Nat → GameResponseChar) × (Nat → Bool) :=
  (List.range 5).foldl (pass2Step ga aa st1.1) st1

/-- Guess::verify: the two passes over the five positions; none models the
as_array panic on a text of more than five characters. -/
def Guess.verify (g answer : Guess) : Option GameResponse :=
  match g.as_array, answer.as_array with
  | some guess_array, some answer_array =>
    some (GameResponse.new_from_game_resp_char
      (pass2 guess_array answer_array
        (pass1 guess_array answer_array answer.text)).1)
  | _, _ => none

/-- GameResponse::unpretty_string: one of G, Y, - per verdict. -/
def GameResponse.unpretty_string (r : GameResponse) : List Char :=
  r.text.map GameResponseChar.to_char

/-- GameResponse::pretty_string: one emoji per verdict. -/
def GameResponse.pretty_string (r : GameResponse) : List Char :=
  r.text.map GameResponseChar.to_emoji

/-- GameResponse::victory: all verdicts Green. -/
def GameResponse.victory (r : GameResponse) : Bool :=
  r.text.all (fun x => x == .Green)

/-- Single-character case of the match in GameResponse::new; none is the
unreachable! panic on a character outside G, Y, X and -. -/
def parseChar (c : Char) : Option GameResponseChar :=
  if c = 'G' then some .Green
  else if c = 'Y' then some .Yellow
  else if c = 'X' ∨ c = '-' then some .Gray
  else none

/-- Write loop of GameResponse::new; none models the unreachable! panic on
an unrecognised character as well as the index panic past position 4. -/
def newGo : List Char → Nat → (Nat → GameResponseChar) →
    Option (Nat → GameResponseChar)
  | [], _, arr => some arr
  | c :: cs, i, arr =>
    match parseChar c with
    | some v => if i < 5 then newGo cs (i + 1) (upd arr i v) else none
    | none => none

/-- GameResponse::new: parses a compact verdict string back into a verdict
sequence (the array starts as five_greys, so a short string leaves trailing
Gray); none models the function's documented panics. -/
def GameResponse.new (text : List Char) : Option GameResponse :=
  (newGo text 0 GameResponseChar.five_greys).map GameResponse.new_from_game_resp_char

/-- Modelled from the spec: pass 1 of the reference two-pass
consume-and-match algorithm of section 4.2 marks verdict i Correct (Green)
on an exact match and consumes answer position i; nothing is tentatively
marked. -/
def specPass1Step (ga aa : Nat → Char)
    (st : (Nat → GameResponseChar) × (Nat → Bool)) (i : Nat) :
    (Nat → GameResponseChar) × (Nat → Bool) :=
  if ga i = aa i then (upd st.1 i .Green, upd st.2 i true) else st

/-- Modelled from the spec: the reference pass 1 over positions 0..4,
starting from all-Absent (Gray) and nothing consumed. -/
def specPass1 (ga aa : Nat → Char) :
    (Nat → GameResponseChar) × (Nat → Bool) :=
  (List.range 5).foldl (specPass1Step ga aa) (fun _ => .Gray, fun _ => false)

/-- Modelled from the spec: scan the answer's unconsumed positions
left-to-right for the guessed character. -/
def specScan (c : Char) (aa : Nat → Char) (consumed : Nat → Bool) : Option Nat :=
  (List.range 5).find? (fun j => aa j == c && !consumed j)

/-- Modelled from the spec: pass 2 of the reference algorithm; a position
not already Correct takes Present (Yellow) and consumes the leftmost
unconsumed answer position holding its character, or is Absent (Gray). -/
def specPass2Step (ga aa : Nat → Char)
    (st : (Nat → GameResponseChar) × (Nat → Bool)) (i : Nat) :
    (Nat → GameResponseChar) × (Nat → Bool) :=
  if st.1 i = .Green then st
  else
    match specScan (ga i) aa st.2 with
    | some j => (upd st.1 i .Yellow, upd st.2 j true)
    | none => (upd st.1 i .Gray, st.2)

/-- Modelled from the spec: the full reference verdict of section 4.2,
pass 1 then pass 2 left-to-right over guess positions 0..4. -/
def specVerify (ga aa : Nat → Char) : Nat → GameResponseChar :=
  ((List.range 5).foldl (specPass2Step ga aa) (specPass1 ga aa)).1

/-! Basic lemmas about the array model and byte lengths. -/

lemma upd_same {α : Type} (f : Nat → α) (i : Nat) (v : α) : upd f i v i = v := by
  simp [upd]

lemma upd_ne {α : Type} (f : Nat → α) (i : Nat) (v : α) {k : Nat} (h : k ≠ i) :
    upd f i v k = f k := by
  simp [upd, h]

lemma upd_idem {α : Type} (f : Nat → α) (i : Nat) (v w : α) :
    upd (upd f i v) i w = upd f i w := by
  funext k
  by_cases h : k = i <;> simp [upd, h]

lemma one_le_len_utf8 (c : Char) : 1 ≤ len_utf8 c := by
  unfold len_utf8
  split
  · exact Nat.le_refl 1
  · split
    · omega
    · split
      · omega
      · omega

lemma byteLen_cons (c : Char) (cs : List Char) :
    byteLen (c :: cs) = len_utf8 c + byteLen cs := by
  simp [byteLen]

lemma byteLen_append (s t : List Char) :
    byteLen (s ++ t) = byteLen s + byteLen t := by
  simp [byteLen]

lemma byteLen_replicate (n : Nat) : byteLen (List.replicate n 'a') = n := by
  induction n with
  | zero => rfl
  | succ m ih =>
    rw [List.replicate_succ, byteLen_cons, ih]
    have h1 : len_utf8 'a' = 1 := rfl
    omega

lemma length_le_byteLen (s : List Char) : s.length ≤ byteLen s := by
  induction s with
  | nil => simp [byteLen]
  | cons c cs ih =>
    rw [byteLen_cons]
    have := one_le_len_utf8 c
    simp only [List.length_cons]
    omega

lemma build_isOk_iff (t : List Char) :
    (Guess.build t).isOk = true ↔ byteLen t = 5 ∧ t.all is_alphabetic = true := by
  unfold Guess.build
  by_cases h5 : byteLen t = 5
  · by_cases ha : t.all is_alphabetic
    · simp [h5, ha, Except.isOk, Except.toBool, Guess.new]
    · simp [h5, ha, Except.isOk, Except.toBool]
  · simp [h5, Except.isOk, Except.toBool]

lemma asArrayGo_spec : ∀ (t : List Char) (i : Nat) (arr : Nat → Char),
    i + t.length ≤ 5 →
    asArrayGo t i arr
      = some (fun k => if i ≤ k then t.getD (k - i) (arr k) else arr k) := by
  intro t
  induction t with
  | nil =>
    intro i arr _
    simp only [asArrayGo, List.getD_nil, Option.some.injEq]
    funext k
    split <;> rfl
  | cons c cs ih =>
    intro i arr h
    have hi : i < 5 := by simp only [List.length_cons] at h; omega
    simp only [asArrayGo, if_pos hi]
    rw [ih (i + 1) (upd arr i c) (by simp only [List.length_cons] at h ⊢; omega)]
    congr 1
    funext k
    rcases Nat.lt_trichotomy k i with hk | hk | hk
    · rw [if_neg (by omega), if_neg (by omega), upd_ne _ _ _ (by omega)]
    · subst hk
      rw [if_neg (by omega), if_pos (Nat.le_refl k), upd_same, Nat.sub_self,
        List.getD_cons_zero]
    · rw [if_pos (by omega), if_pos (by omega), upd_ne _ _ _ (by omega)]
      obtain ⟨m, hm⟩ : ∃ m, k - i = m + 1 := ⟨k - i - 1, by omega⟩
      rw [hm, List.getD_cons_succ]
      congr 1
      omega

lemma as_array_eq (t : List Char) (h : t.length ≤ 5) :
    (Guess.mk t).as_array = some (fun k => t.getD k 'a') := by
  unfold Guess.as_array
  rw [asArrayGo_spec t 0 _ (by omega)]
  congr 1
  funext k
  simp

lemma verify_eq_of_le (g a : List Char) (hg : g.length ≤ 5) (ha : a.length ≤ 5) :
    (Guess.mk g).verify ⟨a⟩
      = some (GameResponse.new_from_game_resp_char
          (pass2 (fun k => g.getD k 'a') (fun k => a.getD k 'a')
            (pass1 (fun k => g.getD k 'a') (fun k => a.getD k 'a') a)).1) := by
  unfold Guess.verify
  rw [as_array_eq g hg, as_array_eq a ha]

/-! Closed forms for the two pass-1 loops. -/

/-- Verdict of a position after the first pass of verify (derived closed
form, not a source function). -/
def p1resp (ga aa : Nat → Char) (t : List Char) (k : Nat) : GameResponseChar :=
  if ga k = aa k then .Green else if t.contains (ga k) then .Yellow else .Gray

lemma ite_lt_succ_ne {α : Type} (x : Nat → α) (d : α) (k m : Nat) (hk : k ≠ m) :
    (if k < m then x k else d) = (if k < m + 1 then x k else d) := by
  by_cases hlt : k < m
  · rw [if_pos hlt, if_pos (by omega)]
  · rw [if_neg hlt, if_neg (by omega)]

lemma ite_and_lt_succ (E : Prop) [Decidable E] (k m : Nat) (hk : k ≠ m) :
    (if k < m ∧ E then true else false) = (if k < m + 1 ∧ E then true else false) := by
  by_cases hlt : k < m
  · by_cases he : E
    · rw [if_pos ⟨hlt, he⟩, if_pos ⟨by omega, he⟩]
    · rw [if_neg (fun h => he h.2), if_neg (fun h => he h.2)]
  · have h2 : ¬(k < m + 1 ∧ E) := by
      intro h
      obtain ⟨h1, -⟩ := h
      omega
    rw [if_neg (fun h => hlt h.1), if_neg h2]

lemma pass1_range_eq (ga aa : Nat → Char) (t : List Char) : ∀ n : Nat,
    (List.range n).foldl (pass1Step ga aa t) (GameResponseChar.five_greys, fun _ => false)
      = (fun k => if k < n then p1resp ga aa t k else .Gray,
         fun k => if k < n ∧ ga k = aa k then true else false) := by
  intro n
  induction n with
  | zero =>
    simp only [List.range_zero, List.foldl_nil, Prod.mk.injEq]
    constructor <;> funext k <;> simp [GameResponseChar.five_greys]
  | succ m ih =>
    rw [List.range_succ, List.foldl_append, ih, List.foldl_cons, List.foldl_nil]
    unfold pass1Step
    by_cases hm : ga m = aa m
    · simp only [if_pos hm, Prod.mk.injEq]
      constructor <;> funext k
      · by_cases hk : k = m
        · subst hk
          rw [upd_same, if_pos (by omega)]
          simp [p1resp, hm]
        · rw [upd_ne _ _ _ hk, ite_lt_succ_ne _ _ _ _ hk]
      · by_cases hk : k = m
        · subst hk
          rw [upd_same, if_pos ⟨by omega, hm⟩]
        · rw [upd_ne _ _ _ hk, ite_and_lt_succ _ _ _ hk]
    · by_cases hc : t.contains (ga m)
      · simp only [if_neg hm, if_pos hc, Prod.mk.injEq]
        constructor <;> funext k
        · by_cases hk : k = m
          · subst hk
            rw [upd_same, if_pos (by omega)]
            unfold p1resp
            rw [if_neg hm, if_pos hc]
          · rw [upd_ne _ _ _ hk, ite_lt_succ_ne _ _ _ _ hk]
        · by_cases hk : k = m
          · subst hk
            rw [if_neg (fun h => absurd h.1 (by omega)),
              if_neg (fun h => hm h.2)]
          · rw [ite_and_lt_succ _ _ _ hk]
      · simp only [if_neg hm, if_neg hc, Prod.mk.injEq]
        constructor <;> funext k
        · by_cases hk : k = m
          · subst hk
            rw [if_neg (by omega), if_pos (by omega)]
            unfold p1resp
            rw [if_neg hm, if_neg hc]
          · rw [ite_lt_succ_ne _ _ _ _ hk]
        · by_cases hk : k = m
          · subst hk
            rw [if_neg (fun h => absurd h.1 (by omega)),
              if_neg (fun h => hm h.2)]
          · rw [ite_and_lt_succ _ _ _ hk]

lemma pass1_eq (ga aa : Nat → Char) (t : List Char) :
    pass1 ga aa t
      = (fun k => if k < 5 then p1resp ga aa t k else .Gray,
         fun k => if k < 5 ∧ ga k = aa k then true else false) :=
  pass1_range_eq ga aa t 5

lemma specPass1_range_eq (ga aa : Nat → Char) : ∀ n : Nat,
    (List.range n).foldl (specPass1Step ga aa) (fun _ => .Gray, fun _ => false)
      = (fun k => if k < n then (if ga k = aa k then .Green else .Gray) else .Gray,
         fun k => if k < n ∧ ga k = aa k then true else false) := by
  intro n
  induction n with
  | zero =>
    simp only [List.range_zero, List.foldl_nil, Prod.mk.injEq]
    constructor <;> funext k <;> simp
  | succ m ih =>
    rw [List.range_succ, List.foldl_append, ih, List.foldl_cons, List.foldl_nil]
    unfold specPass1Step
    by_cases hm : ga m = aa m
    · simp only [if_pos hm, Prod.mk.injEq]
      constructor <;> funext k
      · by_cases hk : k = m
        · subst hk
          rw [upd_same, if_pos (by omega), if_pos hm]
        · rw [upd_ne _ _ _ hk,
            ite_lt_succ_ne
              (fun k => if ga k = aa k then GameResponseChar.Green else GameResponseChar.Gray)
              GameResponseChar.Gray k m hk]
      · by_cases hk : k = m
        · subst hk
          rw [upd_same, if_pos ⟨by omega, hm⟩]
        · rw [upd_ne _ _ _ hk, ite_and_lt_succ _ _ _ hk]
    · simp only [if_neg hm, Prod.mk.injEq]
      constructor <;> funext k
      · by_cases hk : k = m
        · subst hk
          rw [if_neg (by omega), if_pos (by omega), if_neg hm]
        · rw [ite_lt_succ_ne
            (fun k => if ga k = aa k then GameResponseChar.Green else GameResponseChar.Gray)
            GameResponseChar.Gray k m hk]
      · by_cases hk : k = m
        · subst hk
          rw [if_neg (fun h => absurd h.1 (by omega)),
            if_neg (fun h => hm h.2)]
        · rw [ite_and_lt_succ _ _ _ hk]

lemma specPass1_eq (ga aa : Nat → Char) :
    specPass1 ga aa
      = (fun k => if k < 5 then (if ga k = aa k then .Green else .Gray) else .Gray,
         fun k => if k < 5 ∧ ga k = aa k then true else false) :=
  specPass1_range_eq ga aa 5

/-! The second pass: fixLoop characterisation and the simulation between
the implementation's fix-up pass and the reference pass 2. -/

lemma find?_filter_bool (p q : Nat → Bool) : ∀ l : List Nat,
    (l.filter p).find? q = l.find? (fun x => p x && q x) := by
  intro l
  induction l with
  | nil => rfl
  | cons a l ih =>
    simp only [List.filter_cons]
    by_cases hp : p a = true
    · rw [if_pos hp]
      by_cases hq : q a = true
      · rw [List.find?_cons_of_pos _ hq, List.find?_cons_of_pos _ (by simp [hp, hq])]
      · rw [List.find?_cons_of_neg _ (by simp [hq]),
          List.find?_cons_of_neg _ (by simp [hq])]
        exact ih
    · rw [if_neg hp, List.find?_cons_of_neg _ (by simp [hp])]
      exact ih

lemma contains_iff_exists (t : List Char) (h5 : t.length = 5) (c : Char) :
    t.contains c = true ↔ ∃ j, j < 5 ∧ t.getD j 'a' = c := by
  constructor
  · intro hc
    have hmem : c ∈ t := List.elem_iff.mp (by simpa [List.contains] using hc)
    obtain ⟨n, hn, he⟩ := List.mem_iff_getElem.mp hmem
    refine ⟨n, by omega, ?_⟩
    rw [List.getD_eq_getElem t 'a' hn]
    exact he
  · rintro ⟨j, hj, he⟩
    have hjl : j < t.length := by omega
    rw [List.getD_eq_getElem t 'a' hjl] at he
    have hmem : c ∈ t := he ▸ List.getElem_mem hjl
    simpa [List.contains] using List.elem_iff.mpr hmem

lemma fixLoop_eq (i : Nat) : ∀ (js : List Nat) (resp : Nat → GameResponseChar)
    (consumed : Nat → Bool),
    fixLoop i js resp consumed =
      match js.find? (fun j => !consumed j) with
      | some j => (upd resp i .Yellow, upd consumed j true)
      | none => if js.isEmpty then (resp, consumed) else (upd resp i .Gray, consumed) := by
  intro js
  induction js with
  | nil =>
    intro resp consumed
    rfl
  | cons j js ih =>
    intro resp consumed
    unfold fixLoop
    by_cases hj : consumed j = false
    · rw [if_pos hj, List.find?_cons_of_pos _ (by simp [hj])]
    · have hjt : consumed j = true := by
        revert hj
        cases consumed j <;> simp
      rw [if_neg hj, ih, List.find?_cons_of_neg _ (by simp [hjt])]
      cases hf : js.find? (fun j => !consumed j) with
      | some j' =>
        simp [upd_idem]
      | none =>
        by_cases hje : js.isEmpty = true
        · simp [hje]
        · simp [hje, upd_idem]

lemma fixLoop_eq_some (i : Nat) (js : List Nat) (resp : Nat → GameResponseChar)
    (consumed : Nat → Bool) (j : Nat)
    (hf : js.find? (fun j => !consumed j) = some j) :
    fixLoop i js resp consumed = (upd resp i .Yellow, upd consumed j true) := by
  rw [fixLoop_eq, hf]

lemma fixLoop_eq_none (i : Nat) (js : List Nat) (resp : Nat → GameResponseChar)
    (consumed : Nat → Bool)
    (hf : js.find? (fun j => !consumed j) = none) (hne : js.isEmpty = false) :
    fixLoop i js resp consumed = (upd resp i .Gray, consumed) := by
  rw [fixLoop_eq, hf]
  simp [hne]

lemma fixLoop_eq_empty (i : Nat) (js : List Nat) (resp : Nat → GameResponseChar)
    (consumed : Nat → Bool) (hje : js.isEmpty = true) :
    fixLoop i js resp consumed = (resp, consumed) := by
  cases js with
  | nil => rfl
  | cons j js => exact absurd hje (by simp)

lemma pass2_foldl_skip (ga aa : Nat → Char) (respCopy : Nat → GameResponseChar) :
    ∀ (l : List Nat) (st : (Nat → GameResponseChar) × (Nat → Bool)),
      (∀ k ∈ l, respCopy k ≠ .Yellow) →
      l.foldl (pass2Step ga aa respCopy) st = st := by
  intro l
  induction l with
  | nil =>
    intro st _
    rfl
  | cons i l ih =>
    intro st h
    have hstep : pass2Step ga aa respCopy st i = st := by
      unfold pass2Step
      exact if_neg (h i (List.mem_cons_self i l))
    rw [List.foldl_cons, hstep]
    exact ih st fun k hk => h k (List.mem_cons_of_mem i hk)

lemma pass2_foldl_green (ga aa : Nat → Char) (respCopy : Nat → GameResponseChar) :
    ∀ (l : List Nat), l.Nodup →
    ∀ (st : (Nat → GameResponseChar) × (Nat → Bool)),
      (∀ k ∈ l, st.1 k = respCopy k) →
      ∀ k, ((l.foldl (pass2Step ga aa respCopy) st).1 k = .Green ↔ st.1 k = .Green) := by
  intro l
  induction l with
  | nil =>
    intro _ st _ k
    exact Iff.rfl
  | cons i l ih =>
    intro hnd st hst k
    obtain ⟨hi, hndl⟩ := List.nodup_cons.mp hnd
    have hstl : ∀ k ∈ l, st.1 k = respCopy k :=
      fun k hk => hst k (List.mem_cons_of_mem i hk)
    have hst' : ∀ (v : GameResponseChar) (C : Nat → Bool),
        ∀ k ∈ l, (Prod.mk (upd st.1 i v) C).1 k = respCopy k := by
      intro v C k hk
      have hki : k ≠ i := fun he => hi (by rw [← he]; exact hk)
      show upd st.1 i v k = respCopy k
      rw [upd_ne _ _ _ hki]
      exact hstl k hk
    rw [List.foldl_cons]
    by_cases hy : respCopy i = .Yellow
    · have hsti : st.1 i = .Yellow := by
        rw [hst i (List.mem_cons_self i l)]
        exact hy
      have hstep : pass2Step ga aa respCopy st i
          = fixLoop i ((List.range 5).filter (fun j => aa j == ga i)) st.1 st.2 := by
        unfold pass2Step
        rw [if_pos hy]
      rw [hstep]
      generalize ((List.range 5).filter (fun j => aa j == ga i)) = js
      cases hf : js.find? (fun j => !st.2 j) with
      | some j =>
        rw [fixLoop_eq_some _ _ _ _ _ hf,
          ih hndl _ (hst' .Yellow (upd st.2 j true)) k]
        by_cases hk : k = i
        · subst hk
          show upd st.1 k .Yellow k = .Green ↔ st.1 k = .Green
          rw [upd_same, hsti]
        · show upd st.1 i .Yellow k = .Green ↔ st.1 k = .Green
          rw [upd_ne _ _ _ hk]
      | none =>
        by_cases hje : js.isEmpty = true
        · rw [fixLoop_eq_empty _ _ _ _ hje]
          exact ih hndl st hstl k
        · have hne : js.isEmpty = false := by
            revert hje
            cases js.isEmpty <;> simp
          rw [fixLoop_eq_none _ _ _ _ hf hne,
            ih hndl _ (hst' .Gray st.2) k]
          by_cases hk : k = i
          · subst hk
            show upd st.1 k .Gray k = .Green ↔ st.1 k = .Green
            rw [upd_same, hsti]
            constructor <;> intro h <;> exact absurd h (by decide)
          · show upd st.1 i .Gray k = .Green ↔ st.1 k = .Green
            rw [upd_ne _ _ _ hk]
    · have hstep : pass2Step ga aa respCopy st i = st := by
        unfold pass2Step
        exact if_neg hy
      rw [hstep]
      exact ih hndl st hstl k

lemma pass2_sim (ga aa : Nat → Char) (t : List Char)
    (Hmem : ∀ c : Char, t.contains c = true ↔ ∃ j, j < 5 ∧ aa j = c) :
    ∀ (l : List Nat), (∀ k ∈ l, k < 5) → l.Nodup →
    ∀ (Ri Rr : Nat → GameResponseChar) (C : Nat → Bool),
      (∀ k, k ∉ l → Ri k = Rr k) →
      (∀ k ∈ l, Ri k = p1resp ga aa t k) →
      (∀ k ∈ l, Rr k = (if ga k = aa k then GameResponseChar.Green else .Gray)) →
      l.foldl (pass2Step ga aa (fun k => if k < 5 then p1resp ga aa t k else .Gray)) (Ri, C)
        = l.foldl (specPass2Step ga aa) (Rr, C) := by
  intro l
  induction l with
  | nil =>
    intro _ _ Ri Rr C hout _ _
    have hRR : Ri = Rr := funext fun k => hout k (List.not_mem_nil k)
    rw [hRR]
    rfl
  | cons i l ih =>
    intro hl5 hnd Ri Rr C hout hRi hRr
    obtain ⟨hi, hndl⟩ := List.nodup_cons.mp hnd
    have hi5 : i < 5 := hl5 i (List.mem_cons_self i l)
    have hl5' : ∀ k ∈ l, k < 5 := fun k hk => hl5 k (List.mem_cons_of_mem i hk)
    have hRii : Ri i = p1resp ga aa t i := hRi i (List.mem_cons_self i l)
    have hRri : Rr i = (if ga i = aa i then GameResponseChar.Green else .Gray) :=
      hRr i (List.mem_cons_self i l)
    have hRil : ∀ k ∈ l, Ri k = p1resp ga aa t k :=
      fun k hk => hRi k (List.mem_cons_of_mem i hk)
    have hRrl : ∀ k ∈ l, Rr k = (if ga k = aa k then GameResponseChar.Green else .Gray) :=
      fun k hk => hRr k (List.mem_cons_of_mem i hk)
    have hout' : ∀ k, k ∉ l → k ≠ i → Ri k = Rr k :=
      fun k hk hki => hout k (fun hmem => (List.mem_cons.mp hmem).elim hki hk)
    rw [List.foldl_cons, List.foldl_cons]
    by_cases hm : ga i = aa i
    · have h1 : p1resp ga aa t i = .Green := by
        unfold p1resp
        rw [if_pos hm]
      have hstepI : pass2Step ga aa
          (fun k => if k < 5 then p1resp ga aa t k else .Gray) (Ri, C) i = (Ri, C) := by
        unfold pass2Step
        refine if_neg ?_
        intro hcon
        have hcon' : (if i < 5 then p1resp ga aa t i else GameResponseChar.Gray)
            = GameResponseChar.Yellow := hcon
        rw [if_pos hi5, h1] at hcon'
        exact absurd hcon' (by decide)
      have hstepS : specPass2Step ga aa (Rr, C) i = (Rr, C) := by
        unfold specPass2Step
        refine if_pos ?_
        show Rr i = GameResponseChar.Green
        rw [hRri, if_pos hm]
      rw [hstepI, hstepS]
      refine ih hl5' hndl Ri Rr C ?_ hRil hRrl
      intro k hk
      by_cases hki : k = i
      · subst hki
        rw [hRii, h1, hRri, if_pos hm]
      · exact hout' k hk hki
    · have hRriG : Rr i = .Gray := by
        rw [hRri, if_neg hm]
      have hrg : ¬(Rr i = GameResponseChar.Green) := by
        rw [hRriG]
        decide
      by_cases hc : t.contains (ga i) = true
      · have h1 : p1resp ga aa t i = .Yellow := by
          unfold p1resp
          rw [if_neg hm, if_pos hc]
        have hstepI : pass2Step ga aa
            (fun k => if k < 5 then p1resp ga aa t k else .Gray) (Ri, C) i
            = fixLoop i ((List.range 5).filter (fun j => aa j == ga i)) Ri C := by
          unfold pass2Step
          refine if_pos ?_
          show (if i < 5 then p1resp ga aa t i else GameResponseChar.Gray)
            = GameResponseChar.Yellow
          rw [if_pos hi5, h1]
        have hscan : specScan (ga i) aa C
            = ((List.range 5).filter (fun j => aa j == ga i)).find? (fun j => !C j) :=
          (find?_filter_bool (fun j => aa j == ga i) (fun j => !C j) (List.range 5)).symm
        cases hf : ((List.range 5).filter (fun j => aa j == ga i)).find? (fun j => !C j) with
        | some j =>
          have hstepS : specPass2Step ga aa (Rr, C) i = (upd Rr i .Yellow, upd C j true) := by
            unfold specPass2Step
            rw [if_neg hrg, hscan, hf]
          rw [hstepI, fixLoop_eq_some _ _ _ _ _ hf, hstepS]
          refine ih hl5' hndl _ _ _ ?_ ?_ ?_
          · intro k hk
            by_cases hki : k = i
            · subst hki
              rw [upd_same, upd_same]
            · rw [upd_ne _ _ _ hki, upd_ne _ _ _ hki]
              exact hout' k hk hki
          · intro k hk
            have hki : k ≠ i := fun he => hi (by rw [← he]; exact hk)
            rw [upd_ne _ _ _ hki]
            exact hRil k hk
          · intro k hk
            have hki : k ≠ i := fun he => hi (by rw [← he]; exact hk)
            rw [upd_ne _ _ _ hki]
            exact hRrl k hk
        | none =>
          obtain ⟨j0, hj05, hj0a⟩ := (Hmem (ga i)).mp hc
          have hj0mem : j0 ∈ (List.range 5).filter (fun j => aa j == ga i) :=
            List.mem_filter.mpr ⟨List.mem_range.mpr hj05, by simp [hj0a]⟩
          have hne : ((List.range 5).filter (fun j => aa j == ga i)).isEmpty = false := by
            cases hjs : (List.range 5).filter (fun j => aa j == ga i) with
            | nil =>
              rw [hjs] at hj0mem
              exact absurd hj0mem (List.not_mem_nil j0)
            | cons a as => rfl
          have hstepS : specPass2Step ga aa (Rr, C) i = (upd Rr i .Gray, C) := by
            unfold specPass2Step
            rw [if_neg hrg, hscan, hf]
          rw [hstepI, fixLoop_eq_none _ _ _ _ hf hne, hstepS]
          refine ih hl5' hndl _ _ _ ?_ ?_ ?_
          · intro k hk
            by_cases hki : k = i
            · subst hki
              rw [upd_same, upd_same]
            · rw [upd_ne _ _ _ hki, upd_ne _ _ _ hki]
              exact hout' k hk hki
          · intro k hk
            have hki : k ≠ i := fun he => hi (by rw [← he]; exact hk)
            rw [upd_ne _ _ _ hki]
            exact hRil k hk
          · intro k hk
            have hki : k ≠ i := fun he => hi (by rw [← he]; exact hk)
            rw [upd_ne _ _ _ hki]
            exact hRrl k hk
      · have h1 : p1resp ga aa t i = .Gray := by
          unfold p1resp
          rw [if_neg hm, if_neg hc]
        have hstepI : pass2Step ga aa
            (fun k => if k < 5 then p1resp ga aa t k else .Gray) (Ri, C) i = (Ri, C) := by
          unfold pass2Step
          refine if_neg ?_
          intro hcon
          have hcon' : (if i < 5 then p1resp ga aa t i else GameResponseChar.Gray)
              = GameResponseChar.Yellow := hcon
          rw [if_pos hi5, h1] at hcon'
          exact absurd hcon' (by decide)
        have hscannone : specScan (ga i) aa C = none := by
          refine List.find?_eq_none.mpr ?_
          intro x hx hcontra
          have hax : aa x = ga i :=
            beq_iff_eq.mp ((Bool.and_eq_true _ _).mp hcontra).1
          exact hc ((Hmem (ga i)).mpr ⟨x, List.mem_range.mp hx, hax⟩)
        have hstepS : specPass2Step ga aa (Rr, C) i = (upd Rr i .Gray, C) := by
          unfold specPass2Step
          rw [if_neg hrg, hscannone]
        rw [hstepI, hstepS]
        refine ih hl5' hndl _ _ _ ?_ hRil ?_
        · intro k hk
          by_cases hki : k = i
          · subst hki
            rw [upd_same, hRii, h1]
          · rw [upd_ne _ _ _ hki]
            exact hout' k hk hki
        · intro k hk
          have hki : k ≠ i := fun he => hi (by rw [← he]; exact hk)
          rw [upd_ne _ _ _ hki]
          exact hRrl k hk

lemma verify_eq_specVerify (g a : List Char) (hg5 : g.length = 5) (ha5 : a.length = 5) :
    (Guess.mk g).verify ⟨a⟩
      = some (GameResponse.new_from_game_resp_char
          (specVerify (fun k => g.getD k 'a') (fun k => a.getD k 'a'))) := by
  rw [verify_eq_of_le g a (by omega) (by omega)]
  have key : (pass2 (fun k => g.getD k 'a') (fun k => a.getD k 'a')
        (pass1 (fun k => g.getD k 'a') (fun k => a.getD k 'a') a)).1
      = specVerify (fun k => g.getD k 'a') (fun k => a.getD k 'a') := by
    unfold specVerify pass2
    rw [pass1_eq, specPass1_eq]
    refine congrArg Prod.fst (pass2_sim _ _ a (fun c => contains_iff_exists a ha5 c)
      (List.range 5) (fun k hk => List.mem_range.mp hk) (List.nodup_range 5)
      _ _ _ ?_ ?_ ?_)
    · intro k hk
      have hk5 : ¬ k < 5 := fun h => hk (List.mem_range.mpr h)
      show (if k < 5 then p1resp _ _ a k else GameResponseChar.Gray)
        = (if k < 5 then (if _ = _ then GameResponseChar.Green else .Gray) else .Gray)
      rw [if_neg hk5, if_neg hk5]
    · intro k hk
      show (if k < 5 then p1resp _ _ a k else GameResponseChar.Gray) = p1resp _ _ a k
      rw [if_pos (List.mem_range.mp hk)]
    · intro k hk
      show (if k < 5 then (if _ = _ then GameResponseChar.Green else .Gray) else .Gray)
        = (if _ = _ then GameResponseChar.Green else GameResponseChar.Gray)
      rw [if_pos (List.mem_range.mp hk)]
  rw [key]

lemma verify_self (t : List Char) (h : (Guess.build t).isOk = true) :
    (Guess.mk t).verify ⟨t⟩ = some ⟨List.replicate 5 .Green⟩ := by
  have hb := (build_isOk_iff t).mp h
  have hlen : t.length ≤ 5 := le_trans (length_le_byteLen t) (le_of_eq hb.1)
  have hgreen : ∀ k, p1resp (fun k => t.getD k 'a') (fun k => t.getD k 'a') t k = .Green := by
    intro k
    unfold p1resp
    rw [if_pos rfl]
  rw [verify_eq_of_le t t hlen hlen]
  have hp2 : pass2 (fun k => t.getD k 'a') (fun k => t.getD k 'a')
        (pass1 (fun k => t.getD k 'a') (fun k => t.getD k 'a') t)
      = pass1 (fun k => t.getD k 'a') (fun k => t.getD k 'a') t := by
    unfold pass2
    apply pass2_foldl_skip
    intro k hk
    rw [pass1_eq]
    show (if k < 5 then p1resp _ _ t k else GameResponseChar.Gray) ≠ .Yellow
    rw [if_pos (List.mem_range.mp hk), hgreen k]
    decide
  rw [hp2, pass1_eq]
  show some (GameResponse.new_from_game_resp_char
    (fun k => if k < 5 then p1resp (fun k => t.getD k 'a') (fun k => t.getD k 'a') t k
      else GameResponseChar.Gray)) = _
  have hfun : (fun k => if k < 5 then
        p1resp (fun k => t.getD k 'a') (fun k => t.getD k 'a') t k else GameResponseChar.Gray)
      = fun k => if k < 5 then GameResponseChar.Green else GameResponseChar.Gray :=
    funext fun k => by rw [hgreen k]
  rw [hfun]
  rfl

/-- C1: for every pair of validated 5-letter words, the verdict produced by
the implementation's two-pass verify (tentative Yellows in pass 1, fixed up
in pass 2) equals the verdict of the spec's two-pass consume-and-match
reference algorithm. -/
theorem C1_verify_matches_spec (g a : List Char)
    (hgv : (Guess.build g).isOk = true) (hav : (Guess.build a).isOk = true)
    (hg5 : g.length = 5) (ha5 : a.length = 5) :
    (Guess.mk g).verify ⟨a⟩
      = some (GameResponse.new_from_game_resp_char
          (specVerify (fun k => g.getD k 'a') (fun k => a.getD k 'a'))) :=
  verify_eq_specVerify g a hg5 ha5

/-- Witness for C1 at guess "speed", answer "abide". -/
theorem C1_witness :
    (Guess.build ['s','p','e','e','d']).isOk = true
    ∧ (Guess.build ['a','b','i','d','e']).isOk = true
    ∧ (Guess.mk ['s','p','e','e','d']).verify ⟨['a','b','i','d','e']⟩
        = some (GameResponse.new_from_game_resp_char
            (specVerify (fun k => ['s','p','e','e','d'].getD k 'a')
              (fun k => ['a','b','i','d','e'].getD k 'a'))) :=
  ⟨by decide, by decide,
    C1_verify_matches_spec ['s','p','e','e','d'] ['a','b','i','d','e']
      (by decide) (by decide) (by decide) (by decide)⟩

/-- C6: for every build-validated word w, verify(w, w) is all-Correct and
the victory predicate on the result is true. -/
theorem C6_reflexivity (w : Guess) (h : (Guess.build w.text).isOk = true) :
    ∃ r : GameResponse, w.verify w = some r
      ∧ r.text = List.replicate 5 .Green ∧ r.victory = true := by
  refine ⟨⟨List.replicate 5 .Green⟩, ?_, rfl, by decide⟩
  exact verify_self w.text h

/-- Witness for C6 at the word "speed". -/
theorem C6_witness :
    (Guess.build ['s','p','e','e','d']).isOk = true
    ∧ ∃ r : GameResponse, (Guess.mk ['s','p','e','e','d']).verify ⟨['s','p','e','e','d']⟩ = some r
        ∧ r.text = List.replicate 5 .Green ∧ r.victory = true :=
  ⟨by decide, C6_reflexivity ⟨['s','p','e','e','d']⟩ (by decide)⟩

/-- C3 counterexample: taking the claim's direction literally (guess
"abide", answer "speed"), the implementation renders "---YY", not the
claimed "--Y-Y". -/
theorem C3_counterexample :
    ((Guess.mk ['a','b','i','d','e']).verify ⟨['s','p','e','e','d']⟩).map
        GameResponse.unpretty_string = some ['-','-','-','Y','Y']
    ∧ (['-','-','-','Y','Y'] : List Char) ≠ ['-','-','Y','-','Y'] :=
  ⟨by decide, by decide⟩

/-- C3 amended: the five fixtures hold with guess and answer swapped, i.e.
with guess "speed" (as in the repository's tests): answers "speed", "abide",
"erase", "steal", "crepe" render "GGGGG" (victory), "--Y-Y", "Y-YY-",
"G-G--", "-YGY-". -/
theorem C3_fixtures_guess_speed :
    ((Guess.mk ['s','p','e','e','d']).verify ⟨['s','p','e','e','d']⟩).map
        GameResponse.unpretty_string = some ['G','G','G','G','G']
    ∧ ((Guess.mk ['s','p','e','e','d']).verify ⟨['s','p','e','e','d']⟩).map
        GameResponse.victory = some true
    ∧ ((Guess.mk ['s','p','e','e','d']).verify ⟨['a','b','i','d','e']⟩).map
        GameResponse.unpretty_string = some ['-','-','Y','-','Y']
    ∧ ((Guess.mk ['s','p','e','e','d']).verify ⟨['e','r','a','s','e']⟩).map
        GameResponse.unpretty_string = some ['Y','-','Y','Y','-']
    ∧ ((Guess.mk ['s','p','e','e','d']).verify ⟨['s','t','e','a','l']⟩).map
        GameResponse.unpretty_string = some ['G','-','G','-','-']
    ∧ ((Guess.mk ['s','p','e','e','d']).verify ⟨['c','r','e','p','e']⟩).map
        GameResponse.unpretty_string = some ['-','Y','G','Y','-'] :=
  ⟨by decide, by decide, by decide, by decide, by decide, by decide⟩

/-! Victory characterisation and injectivity of the padded array on
validated texts, for claim C10. -/

lemma victory_map_iff (f : Nat → GameResponseChar) :
    (GameResponse.victory ⟨(List.range 5).map f⟩ = true) ↔ ∀ k < 5, f k = .Green := by
  unfold GameResponse.victory
  rw [List.all_eq_true]
  constructor
  · intro h k hk
    exact beq_iff_eq.mp (h (f k) (List.mem_map.mpr ⟨k, List.mem_range.mpr hk, rfl⟩))
  · intro h x hx
    obtain ⟨k, hk, rfl⟩ := List.mem_map.mp hx
    exact beq_iff_eq.mpr (h k (List.mem_range.mp hk))

lemma pass2_green_iff (ga aa : Nat → Char) (t : List Char) (k : Nat) (hk : k < 5) :
    ((pass2 ga aa (pass1 ga aa t)).1 k = .Green) ↔ ga k = aa k := by
  unfold pass2
  rw [pass2_foldl_green ga aa (pass1 ga aa t).1 (List.range 5) (List.nodup_range 5)
    (pass1 ga aa t) (fun _ _ => rfl) k]
  rw [pass1_eq]
  show (if k < 5 then p1resp ga aa t k else GameResponseChar.Gray) = .Green ↔ _
  rw [if_pos hk]
  unfold p1resp
  by_cases hm : ga k = aa k
  · rw [if_pos hm]
    exact ⟨fun _ => hm, fun _ => rfl⟩
  · rw [if_neg hm]
    constructor
    · intro hcon
      by_cases hc : t.contains (ga k) = true
      · rw [if_pos hc] at hcon
        exact absurd hcon (by decide)
      · rw [if_neg hc] at hcon
        exact absurd hcon (by decide)
    · intro hcon
      exact absurd hcon hm

lemma getD_ge {α : Type} : ∀ (t : List α) (k : Nat), t.length ≤ k → ∀ d : α, t.getD k d = d := by
  intro t
  induction t with
  | nil =>
    intro k _ d
    simp [List.getD_nil]
  | cons c cs ih =>
    intro k hk d
    cases k with
    | zero => simp at hk
    | succ m =>
      rw [List.getD_cons_succ]
      exact ih m (by simp at hk; omega) d

lemma eq_of_getD : ∀ {t u : List Char}, t.length = u.length →
    (∀ k, t.getD k 'a' = u.getD k 'a') → t = u := by
  intro t
  induction t with
  | nil =>
    intro u hlen _
    cases u with
    | nil => rfl
    | cons d ds => simp at hlen
  | cons c cs ih =>
    intro u hlen h
    cases u with
    | nil => simp at hlen
    | cons d ds =>
      have h0 := h 0
      rw [List.getD_cons_zero, List.getD_cons_zero] at h0
      subst h0
      have htail : cs = ds := by
        refine ih (by simpa using hlen) ?_
        intro k
        have hs := h (k + 1)
        rwa [List.getD_cons_succ, List.getD_cons_succ] at hs
      rw [htail]

lemma getD_append_left {α : Type} : ∀ (t r : List α) (k : Nat) (d : α), k < t.length →
    (t ++ r).getD k d = t.getD k d := by
  intro t
  induction t with
  | nil =>
    intro r k d hk
    simp at hk
  | cons c cs ih =>
    intro r k d hk
    cases k with
    | zero => rfl
    | succ m =>
      show (cs ++ r).getD m d = cs.getD m d
      exact ih r m d (by simp at hk; omega)

lemma getD_append_right {α : Type} : ∀ (t r : List α) (k : Nat) (d : α), t.length ≤ k →
    (t ++ r).getD k d = r.getD (k - t.length) d := by
  intro t
  induction t with
  | nil =>
    intro r k d _
    rfl
  | cons c cs ih =>
    intro r k d hk
    cases k with
    | zero => simp at hk
    | succ m =>
      show (cs ++ r).getD m d = r.getD (m + 1 - (cs.length + 1)) d
      rw [ih r m d (by simp at hk; omega)]
      congr 1
      omega

lemma getD_replicate_self {α : Type} (a : α) : ∀ (n k : Nat),
    (List.replicate n a).getD k a = a := by
  intro n
  induction n with
  | zero =>
    intro k
    simp [List.getD_nil]
  | succ m ih =>
    intro k
    cases k with
    | zero => rw [List.replicate_succ, List.getD_cons_zero]
    | succ j =>
      rw [List.replicate_succ, List.getD_cons_succ]
      exact ih j

lemma text_eq_of_getD_eq (t u : List Char) (ht : byteLen t = 5) (hu : byteLen u = 5)
    (h : ∀ k < 5, t.getD k 'a' = u.getD k 'a') : t = u := by
  have htl : t.length ≤ 5 := le_trans (length_le_byteLen t) (le_of_eq ht)
  have hul : u.length ≤ 5 := le_trans (length_le_byteLen u) (le_of_eq hu)
  have hptd : ∀ k, (t ++ List.replicate (5 - t.length) 'a').getD k 'a' = t.getD k 'a' := by
    intro k
    by_cases hk : k < t.length
    · exact getD_append_left t _ k 'a' hk
    · rw [getD_append_right t _ k 'a' (by omega), getD_replicate_self, getD_ge t k (by omega)]
  have hpud : ∀ k, (u ++ List.replicate (5 - u.length) 'a').getD k 'a' = u.getD k 'a' := by
    intro k
    by_cases hk : k < u.length
    · exact getD_append_left u _ k 'a' hk
    · rw [getD_append_right u _ k 'a' (by omega), getD_replicate_self, getD_ge u k (by omega)]
  have hlt : (t ++ List.replicate (5 - t.length) 'a').length = 5 := by
    rw [List.length_append, List.length_replicate]
    omega
  have hlu : (u ++ List.replicate (5 - u.length) 'a').length = 5 := by
    rw [List.length_append, List.length_replicate]
    omega
  have hpe : (t ++ List.replicate (5 - t.length) 'a')
      = (u ++ List.replicate (5 - u.length) 'a') := by
    refine eq_of_getD (by rw [hlt, hlu]) ?_
    intro k
    by_cases hk : k < 5
    · rw [hptd, hpud]
      exact h k hk
    · rw [getD_ge _ k (by omega), getD_ge _ k (by omega)]
  have hbt : byteLen (t ++ List.replicate (5 - t.length) 'a') = 5 + (5 - t.length) := by
    rw [byteLen_append, byteLen_replicate, ht]
  have hbu : byteLen (u ++ List.replicate (5 - u.length) 'a') = 5 + (5 - u.length) := by
    rw [byteLen_append, byteLen_replicate, hu]
  have hbeq : byteLen (t ++ List.replicate (5 - t.length) 'a')
      = byteLen (u ++ List.replicate (5 - u.length) 'a') := by rw [hpe]
  have hleneq : t.length = u.length := by omega
  exact (List.append_inj hpe hleneq).1

/-- C10: for build-accepted words g and a, the victory predicate on
verify(g, a) is true exactly when g and a are equal as strings (comparison
is case-sensitive and build applies no normalisation). -/
theorem C10_victory_iff_eq (g a : List Char)
    (hgv : (Guess.build g).isOk = true) (hav : (Guess.build a).isOk = true)
    (r : GameResponse) (hr : (Guess.mk g).verify ⟨a⟩ = some r) :
    r.victory = true ↔ g = a := by
  have hbg := (build_isOk_iff g).mp hgv
  have hba := (build_isOk_iff a).mp hav
  have hgl : g.length ≤ 5 := le_trans (length_le_byteLen g) (le_of_eq hbg.1)
  have hal : a.length ≤ 5 := le_trans (length_le_byteLen a) (le_of_eq hba.1)
  rw [verify_eq_of_le g a hgl hal] at hr
  have hr' := Option.some_inj.mp hr
  subst hr'
  unfold GameResponse.new_from_game_resp_char
  rw [victory_map_iff]
  constructor
  · intro h
    refine text_eq_of_getD_eq g a hbg.1 hba.1 ?_
    intro k hk
    exact (pass2_green_iff _ _ a k hk).mp (h k hk)
  · intro h
    subst h
    intro k hk
    exact (pass2_green_iff _ _ g k hk).mpr rfl

/-- Witness for C10 at g = a = "speed". -/
theorem C10_witness :
    (Guess.build ['s','p','e','e','d']).isOk = true
    ∧ ∃ r : GameResponse,
        (Guess.mk ['s','p','e','e','d']).verify ⟨['s','p','e','e','d']⟩ = some r
        ∧ (r.victory = true ↔ (['s','p','e','e','d'] : List Char) = ['s','p','e','e','d']) :=
  ⟨by decide, ⟨⟨List.replicate 5 .Green⟩, by decide,
    C10_victory_iff_eq ['s','p','e','e','d'] ['s','p','e','e','d']
      (by decide) (by decide) ⟨List.replicate 5 .Green⟩ (by decide)⟩⟩

/-! The verdict parser GameResponse::new: round-trip and failure analysis. -/

lemma parseChar_to_char (v : GameResponseChar) : parseChar v.to_char = some v := by
  cases v <;> decide

lemma newGo_map_spec : ∀ (l : List GameResponseChar) (i : Nat) (arr : Nat → GameResponseChar),
    i + l.length ≤ 5 →
    newGo (l.map GameResponseChar.to_char) i arr
      = some (fun k => if i ≤ k then l.getD (k - i) (arr k) else arr k) := by
  intro l
  induction l with
  | nil =>
    intro i arr _
    simp only [List.map_nil, newGo, List.getD_nil, Option.some.injEq]
    funext k
    split <;> rfl
  | cons c cs ih =>
    intro i arr h
    have hi : i < 5 := by simp only [List.length_cons] at h; omega
    simp only [List.map_cons, newGo, parseChar_to_char, if_pos hi]
    rw [ih (i + 1) (upd arr i c) (by simp only [List.length_cons] at h ⊢; omega)]
    congr 1
    funext k
    rcases Nat.lt_trichotomy k i with hk | hk | hk
    · rw [if_neg (by omega), if_neg (by omega), upd_ne _ _ _ (by omega)]
    · subst hk
      rw [if_neg (by omega), if_pos (Nat.le_refl k), upd_same, Nat.sub_self,
        List.getD_cons_zero]
    · rw [if_pos (by omega), if_pos (by omega), upd_ne _ _ _ (by omega)]
      obtain ⟨m, hm⟩ : ∃ m, k - i = m + 1 := ⟨k - i - 1, by omega⟩
      rw [hm, List.getD_cons_succ]
      congr 1
      omega

/-- C7: parsing the compact rendering of a verdict sequence back through
GameResponse::new yields the original verdict sequence. -/
theorem C7_round_trip (r : GameResponse) (h5 : r.text.length = 5) :
    GameResponse.new r.unpretty_string = some r := by
  unfold GameResponse.new GameResponse.unpretty_string
  rw [newGo_map_spec r.text 0 GameResponseChar.five_greys (by omega)]
  simp only [Option.map_some']
  congr 1
  unfold GameResponse.new_from_game_resp_char
  have hfun : (fun k => if 0 ≤ k then r.text.getD (k - 0) (GameResponseChar.five_greys k)
      else GameResponseChar.five_greys k) = fun k => r.text.getD k .Gray := by
    funext k
    rw [if_pos (Nat.zero_le k), Nat.sub_zero]
    rfl
  rw [hfun]
  have hlist : (List.range 5).map (fun k => r.text.getD k .Gray) = r.text := by
    refine List.ext_getElem (by simp [h5]) ?_
    intro n h1 h2
    rw [List.getElem_map, List.getElem_range]
    exact List.getD_eq_getElem r.text .Gray h2
  rw [hlist]

/-- Witness for C7 at the verdict sequence GY-G-. -/
theorem C7_witness :
    (GameResponse.mk [.Green, .Yellow, .Gray, .Green, .Gray]).text.length = 5
    ∧ GameResponse.new
        (GameResponse.mk [.Green, .Yellow, .Gray, .Green, .Gray]).unpretty_string
      = some ⟨[.Green, .Yellow, .Gray, .Green, .Gray]⟩ :=
  ⟨by decide, C7_round_trip ⟨[.Green, .Yellow, .Gray, .Green, .Gray]⟩ (by decide)⟩

/-- C8 counterexample: parsing "GYGAX" reaches the unreachable! panic
(modelled as none) instead of returning an error value, and the fourth
symbol X, outside the three recognised symbols, is accepted. -/
theorem C8_counterexample :
    GameResponse.new ['G','Y','G','A','X'] = none
    ∧ (GameResponse.new ['G','Y','-','X','G']).isSome = true :=
  ⟨by decide, by decide⟩

lemma parseChar_eq_none_iff (c : Char) :
    parseChar c = none ↔ ¬(c = 'G' ∨ c = 'Y' ∨ c = 'X' ∨ c = '-') := by
  by_cases h1 : c = 'G'
  · subst h1
    decide
  · by_cases h2 : c = 'Y'
    · subst h2
      decide
    · by_cases h3x : c = 'X'
      · subst h3x
        decide
      · by_cases h3d : c = '-'
        · subst h3d
          decide
        · unfold parseChar
          rw [if_neg h1, if_neg h2, if_neg (fun hd => hd.elim h3x h3d)]
          exact ⟨fun _ => fun hd => hd.elim h1 (fun hd2 => hd2.elim h2
            (fun hd3 => hd3.elim h3x h3d)), fun _ => rfl⟩

lemma newGo_eq_none_iff : ∀ (s : List Char) (i : Nat) (arr : Nat → GameResponseChar),
    i + s.length ≤ 5 →
    (newGo s i arr = none ↔ ∃ c ∈ s, parseChar c = none) := by
  intro s
  induction s with
  | nil =>
    intro i arr _
    simp [newGo]
  | cons c cs ih =>
    intro i arr h
    have hi : i < 5 := by simp only [List.length_cons] at h; omega
    cases hp : parseChar c with
    | none =>
      simp only [newGo, hp]
      exact ⟨fun _ => ⟨c, List.mem_cons_self c cs, hp⟩, fun _ => trivial⟩
    | some v =>
      simp only [newGo, hp, if_pos hi]
      rw [ih (i + 1) (upd arr i v) (by simp only [List.length_cons] at h ⊢; omega)]
      constructor
      · rintro ⟨c', hc', hpc'⟩
        exact ⟨c', List.mem_cons_of_mem c hc', hpc'⟩
      · rintro ⟨c', hc', hpc'⟩
        rcases List.mem_cons.mp hc' with he | he
        · subst he
          rw [hp] at hpc'
          exact absurd hpc' (by simp)
        · exact ⟨c', he, hpc'⟩

/-- C8 amended: for strings of at most five characters, GameResponse::new
panics (unreachable!, modelled as none) exactly when the string contains a
character outside the four recognised symbols G, Y, X and -; no
InvalidVerdictSymbol error value exists in the code. -/
theorem C8_amended (s : List Char) (h5 : s.length ≤ 5) :
    GameResponse.new s = none
      ↔ ∃ c ∈ s, ¬(c = 'G' ∨ c = 'Y' ∨ c = 'X' ∨ c = '-') := by
  unfold GameResponse.new
  rw [Option.map_eq_none', newGo_eq_none_iff s 0 GameResponseChar.five_greys (by omega)]
  constructor
  · rintro ⟨c, hc, hpc⟩
    exact ⟨c, hc, (parseChar_eq_none_iff c).mp hpc⟩
  · rintro ⟨c, hc, hk⟩
    exact ⟨c, hc, (parseChar_eq_none_iff c).mpr hk⟩

/-- Witness for the amended C8 at the string "GYZ". -/
theorem C8_amended_witness :
    (['G','Y','Z'] : List Char).length ≤ 5
    ∧ (GameResponse.new ['G','Y','Z'] = none
        ↔ ∃ c ∈ (['G','Y','Z'] : List Char), ¬(c = 'G' ∨ c = 'Y' ∨ c = 'X' ∨ c = '-')) :=
  ⟨by decide, C8_amended ['G','Y','Z'] (by decide)⟩

/-- C4: evaluation at the failing inputs: the build length check counts
UTF-8 bytes, not characters.  The four-character word "héll" (é takes two
bytes, so String::len is 5) is accepted, while the five-character word
"héllo" (byte length 6) is rejected with NotFiveLetters — against the
claim's character count and build's own doc comment ("5 letters"). -/
theorem C4_byte_length_check :
    (['h','é','l','l'] : List Char).length = 4
    ∧ byteLen ['h','é','l','l'] = 5
    ∧ Guess.build ['h','é','l','l'] = .ok ⟨['h','é','l','l']⟩
    ∧ (['h','é','l','l','o'] : List Char).length = 5
    ∧ byteLen ['h','é','l','l','o'] = 6
    ∧ Guess.build ['h','é','l','l','o'] = .error .NotFiveLetters :=
  ⟨by decide, by decide, rfl, by decide, by decide, rfl⟩

/-- C5 counterexample: "héll@" has exactly five characters and contains the
non-alphabetic character @, yet build rejects it with NotFiveLetters (its
UTF-8 byte length is 6), not NotAlphabetic. -/
theorem C5_counterexample :
    (['h','é','l','l','@'] : List Char).length = 5
    ∧ is_alphabetic '@' = false
    ∧ Guess.build ['h','é','l','l','@'] = .error .NotFiveLetters :=
  ⟨by decide, by decide, rfl⟩

/-- C5 amended: every input of UTF-8 byte length 5 containing a
non-alphabetic character fails with NotAlphabetic, and the length check has
priority: every input whose byte length is not 5 fails with NotFiveLetters
whatever its content. -/
theorem C5_amended :
    (∀ t : List Char, byteLen t = 5 → (∃ c ∈ t, is_alphabetic c = false) →
      Guess.build t = .error .NotAlphabetic)
    ∧ (∀ t : List Char, byteLen t ≠ 5 → Guess.build t = .error .NotFiveLetters) := by
  constructor
  · intro t h5 hex
    have hall : t.all is_alphabetic = false := by
      obtain ⟨c, hc, hcf⟩ := hex
      by_contra hcon
      have htrue : t.all is_alphabetic = true := by
        revert hcon
        cases t.all is_alphabetic <;> simp
      have hct := List.all_eq_true.mp htrue c hc
      rw [hcf] at hct
      exact absurd hct (by decide)
    unfold Guess.build
    rw [if_neg (fun hne => hne h5), hall]
    rfl
  · intro t h5
    unfold Guess.build
    rw [if_pos h5]

/-- Witness for the amended C5 at "ab1de" and "ab". -/
theorem C5_amended_witness :
    Guess.build ['a','b','1','d','e'] = .error .NotAlphabetic
    ∧ Guess.build ['a','b'] = .error .NotFiveLetters :=
  ⟨C5_amended.1 ['a','b','1','d','e'] (by decide) ⟨'1', by decide, by decide⟩,
    C5_amended.2 ['a','b'] (by decide)⟩

/-- C2: evaluation at the failing input: guess "xaéa" and answer "aéé" are
both accepted by build (each has UTF-8 byte length 5), the guess text holds
the letter a at two of its four positions and verify scores both of them
(one Present and one Correct, via the 'a'-padding that as_array adds to
texts shorter than five characters), yet the answer text contains the
letter a only once — the conservation bound of the claim fails. -/
theorem C2_conservation_violation :
    (Guess.build ['x','a','é','a']).isOk = true
    ∧ (Guess.build ['a','é','é']).isOk = true
    ∧ ((Guess.mk ['x','a','é','a']).verify ⟨['a','é','é']⟩).map
        (fun r => (List.range 4).countP (fun i =>
          (['x','a','é','a'].getD i ' ' == 'a')
          && (r.text.getD i .Gray == .Green || r.text.getD i .Gray == .Yellow)))
      = some 2
    ∧ (['a','é','é'] : List Char).count 'a' = 1 :=
  ⟨by decide, by decide, by decide, by decide⟩

/-- C9: every build-accepted text has at most five characters (each
character occupies at least one byte of the five-byte length), so the
as_array write loop stays in bounds (the none branch modelling the index
panic is unreachable) and verify on build-accepted words returns a result. -/
theorem C9_no_panic (t u : List Char)
    (ht : (Guess.build t).isOk = true) (hu : (Guess.build u).isOk = true) :
    t.length ≤ 5
    ∧ (Guess.mk t).as_array.isSome = true
    ∧ ((Guess.mk t).verify ⟨u⟩).isSome = true := by
  have hbt := (build_isOk_iff t).mp ht
  have hbu := (build_isOk_iff u).mp hu
  have htl : t.length ≤ 5 := le_trans (length_le_byteLen t) (le_of_eq hbt.1)
  have hul : u.length ≤ 5 := le_trans (length_le_byteLen u) (le_of_eq hbu.1)
  refine ⟨htl, ?_, ?_⟩
  · rw [as_array_eq t htl]
    rfl
  · rw [verify_eq_of_le t u htl hul]
    rfl

/-- Witness for C9 at "speed" and "radio". -/
theorem C9_witness :
    (Guess.build ['s','p','e','e','d']).isOk = true
    ∧ ((['s','p','e','e','d'] : List Char).length ≤ 5
      ∧ (Guess.mk ['s','p','e','e','d']).as_array.isSome = true
      ∧ ((Guess.mk ['s','p','e','e','d']).verify ⟨['r','a','d','i','o']⟩).isSome = true) :=
  ⟨by decide,
    C9_no_panic ['s','p','e','e','d'] ['r','a','d','i','o'] (by decide) (by decide)⟩

end Wordle
